import Mathlib

/-!
Shallow embedding of the Matrix-rain terminal animation (`main.go` of
hugomf/hugo_rain) and proofs about it.  Go `float64` arithmetic is
modelled over `ℚ`; Go machine integers are modelled as `Int`/`Nat`
(terminal dimensions are non-negative).  Go's fallible calls return a
`GoRes` value distinguishing an ordinary `error` return from a runtime
panic (such as `rand.Intn` with a non-positive bound).
-/

/-- Truncation of a rational toward zero, the semantics of Go's
`int(x)` conversion applied to a non-NaN finite float. -/
def goInt (q : ℚ) : Int :=
  if 0 ≤ q then ⌊q⌋ else -⌊-q⌋

/-- Outcome of a Go computation: normal result, `error` return, or
runtime panic. -/
inductive GoRes (α : Type) where
  | ok : α → GoRes α
  | err : String → GoRes α
  | panicked : GoRes α
deriving DecidableEq

/-- Monadic bind for `GoRes`: propagate errors and panics. -/
def GoRes.bind : GoRes α → (α → GoRes β) → GoRes β
  | .ok a, f => f a
  | .err s, _ => .err s
  | .panicked, _ => .panicked

instance : Monad GoRes where
  pure := .ok
  bind := GoRes.bind

-- === COLOR ===

/-- RGB color triple; each channel is a Go `uint8` (value in [0,255]
at every use site in the program). -/
structure Color where
  R : Nat
  G : Nat
  B : Nat
deriving DecidableEq

instance : Inhabited Color := ⟨⟨0, 0, 0⟩⟩

/-- Go `uint8(float64(v) * factor)` for a channel value: multiply and
truncate toward zero (the factor is non-negative at every call). -/
def dimChan (v : Nat) (factor : ℚ) : Nat :=
  (goInt ((v : ℚ) * factor)).toNat

/-- `dim` reduces the brightness of a color by a factor. -/
def dim (c : Color) (factor : ℚ) : Color :=
  { R := dimChan c.R factor, G := dimChan c.G factor, B := dimChan c.B factor }

/-- `clamp` limits a value to a maximum. -/
def clamp (mx val : ℚ) : ℚ :=
  if val < mx then val else mx

/-- `brighten` increases the brightness of a color by a factor,
clamping each channel to 255. -/
def brighten (c : Color) (factor : ℚ) : Color :=
  { R := (goInt (clamp 255 ((c.R : ℚ) * factor))).toNat,
    G := (goInt (clamp 255 ((c.G : ℚ) * factor))).toNat,
    B := (goInt (clamp 255 ((c.B : ℚ) * factor))).toNat }

/-- Sum of the three channels, the brightness measure used by the
gradient-monotonicity property. -/
def Color.brightness (c : Color) : Nat :=
  c.R + c.G + c.B

-- === FRAME ===

/-- In-memory terminal screen state: three parallel grids plus the
dimensions, exactly as in the Go `Frame` struct. -/
structure Frame where
  characters : List (List Char)
  colors : List (List Color)
  isBackground : List (List Bool)
  height : Nat
  width : Nat
deriving DecidableEq

/-- `NewFrame` allocates a frame of the given dimensions: all cells
are the space character, background `true`, zero color. -/
def NewFrame (height width : Nat) : Frame :=
  { characters := List.replicate height (List.replicate width ' '),
    colors := List.replicate height (List.replicate width ⟨0, 0, 0⟩),
    isBackground := List.replicate height (List.replicate width true),
    height := height,
    width := width }

/-- `clear` resets every cell of the frame to space / background /
zero color (it iterates the existing rows, keeping the shape). -/
def Frame.clear (f : Frame) : Frame :=
  { f with
    characters := f.characters.map (List.map fun _ => ' '),
    colors := f.colors.map (List.map fun _ => (⟨0, 0, 0⟩ : Color)),
    isBackground := f.isBackground.map (List.map fun _ => true) }

/-- Character stored at cell (r, c). -/
def Frame.charAt (f : Frame) (r c : Nat) : Char :=
  (f.characters.getD r []).getD c ' '

/-- Color stored at cell (r, c). -/
def Frame.colorAt (f : Frame) (r c : Nat) : Color :=
  (f.colors.getD r []).getD c ⟨0, 0, 0⟩

/-- Background flag stored at cell (r, c). -/
def Frame.bgAt (f : Frame) (r c : Nat) : Bool :=
  (f.isBackground.getD r []).getD c true

/-- Write one cell of the frame (the three parallel-grid assignments
performed by `drawDrop` for one row). -/
def Frame.setCell (f : Frame) (r c : Nat) (ch : Char) (col : Color) (bg : Bool) : Frame :=
  { f with
    characters := f.characters.set r ((f.characters.getD r []).set c ch),
    colors := f.colors.set r ((f.colors.getD r []).set c col),
    isBackground := f.isBackground.set r ((f.isBackground.getD r []).set c bg) }

/-- Well-formedness of a frame: each of the three grids has `height`
rows of `width` cells (the invariant `NewFrame` establishes). -/
def FrameWF (f : Frame) : Prop :=
  f.characters.length = f.height ∧ f.colors.length = f.height ∧
  f.isBackground.length = f.height ∧
  (∀ row ∈ f.characters, row.length = f.width) ∧
  (∀ row ∈ f.colors, row.length = f.width) ∧
  (∀ row ∈ f.isBackground, row.length = f.width)

instance (f : Frame) : Decidable (FrameWF f) := by
  unfold FrameWF; infer_instance

-- === FRAME COPY ===

/-- Go's builtin `copy(dst, src)` on slices: the first
`min |src| |dst|` elements of `dst` are overwritten by `src`'s. -/
def listCopy (src dst : List α) : List α :=
  src.take dst.length ++ dst.drop src.length

/-- Row-wise `copy` of a grid: `for r := range src { copy(dst[r], src[r]) }`
(every call site has grids of equal shape). -/
def copyGrid (src dst : List (List α)) : List (List α) :=
  List.zipWith listCopy src dst ++ dst.drop src.length

/-- `copyFrame` copies the source frame's cell data into the
destination frame, row by row. -/
def copyFrame (src dst : Frame) : Frame :=
  { dst with
    characters := copyGrid src.characters dst.characters,
    colors := copyGrid src.colors dst.colors,
    isBackground := copyGrid src.isBackground dst.isBackground }

-- === RENDERER ===

/-- ANSI set-foreground-RGB sequence emitted by `writeColor`. -/
def colorSeq (c : Color) : String :=
  "\x1b[38;2;" ++ toString c.R ++ ";" ++ toString c.G ++ ";" ++ toString c.B ++ "m"

/-- ANSI cursor-position sequence (1-based row and column). -/
def cursorSeq (row col : Nat) : String :=
  "\x1b[" ++ toString (row + 1) ++ ";" ++ toString (col + 1) ++ "H"

/-- ANSI reset-all-attributes sequence. -/
def resetSeq : String := "\x1b[0m"

/-- Running state of a render pass: the byte builder, the current
color and whether a color is set (`b`, `currentColor`, `isColorSet`). -/
structure RenderState where
  b : String
  currentColor : Color
  isColorSet : Bool

/-- `writeColor` appends a set-color sequence if no color is set or
the color differs from the current one. -/
def writeColor (st : RenderState) (c : Color) : RenderState :=
  if ¬st.isColorSet ∨ c ≠ st.currentColor then
    { b := st.b ++ colorSeq c, currentColor := c, isColorSet := true }
  else st

/-- One cell of `fullRender`'s inner loop. -/
def fullCell (f : Frame) (row : Nat) (st : RenderState) (col : Nat) : RenderState :=
  let st1 :=
    if f.bgAt row col then
      if st.isColorSet then { st with b := st.b ++ resetSeq, isColorSet := false } else st
    else if col = 0 ∨ f.colorAt row col ≠ f.colorAt row (col - 1) then
      writeColor st (f.colorAt row col)
    else st
  { st1 with b := st1.b ++ (f.charAt row col).toString }

/-- One row of `fullRender`: all columns, then a `\r\n` separator
except after the last row. -/
def fullRow (f : Frame) (st : RenderState) (row : Nat) : RenderState :=
  let st1 := (List.range f.width).foldl (fullCell f row) st
  if row < f.height - 1 then { st1 with b := st1.b ++ "\r\n" } else st1

/-- `fullRender` draws the entire frame: cursor-home, every cell, and
a final color reset if a color is still set. -/
def fullRender (f : Frame) : String :=
  let st0 : RenderState := { b := "\x1b[H", currentColor := ⟨0, 0, 0⟩, isColorSet := false }
  let st := (List.range f.height).foldl (fullRow f) st0
  if st.isColorSet then st.b ++ resetSeq else st.b

/-- Running state of `deltaRender`: render state plus the
`hasChanges` flag. -/
structure DeltaState where
  b : String
  currentColor : Color
  isColorSet : Bool
  hasChanges : Bool

/-- One cell of `deltaRender`'s scan: emit cursor position, color and
character only when the character or color differs from the cached
previous frame. -/
def deltaCell (prev f : Frame) (col : Nat) (st : DeltaState) (row : Nat) : DeltaState :=
  if f.charAt row col ≠ prev.charAt row col ∨ f.colorAt row col ≠ prev.colorAt row col then
    let st1 := { st with hasChanges := true, b := st.b ++ cursorSeq row col }
    let st2 :=
      if f.bgAt row col then
        if st1.isColorSet then { st1 with b := st1.b ++ resetSeq, isColorSet := false } else st1
      else
        let r := writeColor { b := st1.b, currentColor := st1.currentColor,
                              isColorSet := st1.isColorSet } (f.colorAt row col)
        { st1 with b := r.b, currentColor := r.currentColor, isColorSet := r.isColorSet }
    { st2 with b := st2.b ++ (f.charAt row col).toString }
  else st

/-- `deltaRender` scans column-major over all cells; if no cell
changed, nothing at all is written to the output sink. -/
def deltaRender (prev f : Frame) : String :=
  let st0 : DeltaState := { b := "", currentColor := ⟨0, 0, 0⟩, isColorSet := false,
                            hasChanges := false }
  let st := (List.range f.width).foldl
    (fun st col => (List.range f.height).foldl (deltaCell prev f col) st) st0
  if st.hasChanges then (if st.isColorSet then st.b ++ resetSeq else st.b) else ""

-- === SCREEN (reference semantics) ===

/-- The `Screen` with Go's pointer semantics made explicit: a heap of
frames addressed by naturals, an allocation bound, and the renderer's
cached previous-frame pointer (`nil` modelled by `none`).  The
engine's live frame buffer lives at some address of the same heap. -/
structure Screen where
  store : Nat → Frame
  next : Nat
  prevAddr : Option Nat

/-- Overwrite the frame stored at one heap address. -/
def Screen.writeAt (s : Screen) (a : Nat) (f : Frame) : Screen :=
  { s with store := Function.update s.store a f }

/-- Mutate one cell of the frame stored at a heap address (what Go
code holding a `*Frame` can do to the engine's live buffer). -/
def Screen.mutateCell (s : Screen) (a : Nat) (r c : Nat) (ch : Char) (col : Color)
    (bg : Bool) : Screen :=
  s.writeAt a ((s.store a).setCell r c ch col bg)

/-- The full-render branch of `Screen.Draw`: render, allocate a fresh
previous frame of the incoming frame's dimensions, deep-copy into it. -/
def Screen.drawFull (s : Screen) (f : Frame) : Screen × String :=
  let out := fullRender f
  let pf := copyFrame f (NewFrame f.height f.width)
  ({ store := Function.update s.store s.next pf,
     next := s.next + 1,
     prevAddr := some s.next }, out)

/-- `Screen.Draw` on the frame stored at address `a`: full render when
there is no cached frame or its dimensions differ, else delta render;
in both cases the just-rendered cell data is deep-copied into the
renderer's own cache. -/
def Screen.Draw (s : Screen) (a : Nat) : Screen × String :=
  let f := s.store a
  match s.prevAddr with
  | none => s.drawFull f
  | some pa =>
    let p := s.store pa
    if p.height = f.height ∧ p.width = f.width then
      let out := deltaRender p f
      (s.writeAt pa (copyFrame f p), out)
    else s.drawFull f

-- === RANDOM SOURCE ===

/-- Deterministic model of `*rand.Rand`: two streams of raw draws,
one consumed by `Intn` (reduced modulo the bound) and one consumed by
`Float64` (values expected in `[0,1)`). -/
structure Rng where
  ints : List Nat
  floats : List ℚ
deriving DecidableEq

/-- `rand.Intn(n)`: uniform draw in `[0, n)`; Go panics when the
bound is not positive, modelled by `none`. -/
def Rng.intn (r : Rng) (n : Int) : Option (Int × Rng) :=
  if n ≤ 0 then none
  else some (((r.ints.headD 0 : Int)) % n, { r with ints := r.ints.tail })

/-- `rand.Float64()`: next value of the float stream. -/
def Rng.float64 (r : Rng) : ℚ × Rng :=
  (r.floats.headD 0, { r with floats := r.floats.tail })

-- === DROP ===

/-- A single falling character stream. -/
structure Drop where
  Pos : Int
  Length : Int
  Char : Char
  Active : Bool
deriving DecidableEq

/-- `NewDrop` creates a drop with random initial state: position
`Intn(height) - Intn(height/2)`, length in `[minLength, maxLength]`,
a random character, and `Active = true`.  An empty character set is a
Go `error`; a non-positive `Intn` bound (height 0 or 1) is a panic. -/
def NewDrop (height : Nat) (minLength maxLength : Int) (charSet : List Char)
    (r : Rng) : GoRes (Drop × Rng) :=
  if charSet.isEmpty then .err "character set cannot be empty"
  else match r.intn (height : Int) with
  | none => .panicked
  | some (a, r1) => match r1.intn ((height / 2 : Nat) : Int) with
    | none => .panicked
    | some (b, r2) => match r2.intn (maxLength - minLength + 1) with
      | none => .panicked
      | some (l, r3) => match r3.intn (charSet.length : Int) with
        | none => .panicked
        | some (ci, r4) =>
          .ok ({ Pos := a - b, Length := l + minLength,
                 Char := charSet.getD ci.toNat ' ', Active := true }, r4)

-- === ENGINE ===

/-- The simulation engine.  The Go struct's `random` is threaded
explicitly, its `terminal` is replaced by passing each tick's size
query result into `NextFrame`, and `fps` is irrelevant to the core. -/
structure Engine where
  height : Nat
  width : Nat
  baseColor : Color
  trailColors : List Color
  drops : List (List Drop)
  charSet : List Char
  density : ℚ
  frameBuffer : Option Frame
  minDropLength : Int
  maxDropLength : Int
  reactivateChance : ℚ
  pauseChance : ℚ
deriving DecidableEq

/-- `calcTrailColors` generates the gradient: color `i` of `steps` is
the base color dimmed by `1 - (i/steps) * 0.8`. -/
def calcTrailColors (baseColor : Color) (steps : Nat) : List Color :=
  (List.range steps).map fun (i : Nat) =>
    dim baseColor (1 - (i : ℚ) / (steps : ℚ) * (8 / 10))

/-- `Engine.Update` advances one drop.  Inactive: roll
`reactivateChance * density`; on success activate at position 0 with
fresh length and character.  Active: increment the position; when the
head has passed `height + length`, reset the position to the negative
of the (old) length, draw a fresh length and character, and roll
`pauseChance` to possibly deactivate. -/
def Engine.Update (e : Engine) (d : Drop) (height : Nat) (r : Rng) : GoRes (Drop × Rng) :=
  if ¬d.Active then
    let (roll, r1) := r.float64
    if roll < e.reactivateChance * e.density then
      match r1.intn (e.maxDropLength - e.minDropLength + 1) with
      | none => .panicked
      | some (l, r2) => match r2.intn (e.charSet.length : Int) with
        | none => .panicked
        | some (ci, r3) =>
          .ok ({ Pos := 0, Length := l + e.minDropLength,
                 Char := e.charSet.getD ci.toNat ' ', Active := true }, r3)
    else .ok (d, r1)
  else
    let pos1 := d.Pos + 1
    if pos1 - d.Length > (height : Int) then
      match r.intn (e.maxDropLength - e.minDropLength + 1) with
      | none => .panicked
      | some (l, r1) => match r1.intn (e.charSet.length : Int) with
        | none => .panicked
        | some (ci, r2) =>
          let (roll, r3) := r2.float64
          .ok ({ Pos := -d.Length, Length := l + e.minDropLength,
                 Char := e.charSet.getD ci.toNat ' ',
                 Active := if roll < e.pauseChance then false else d.Active }, r3)
    else .ok ({ d with Pos := pos1 }, r)

/-- Target number of drops per column computed by `Engine.Resize`:
`int(density + 0.5)`, floored at 1. -/
def numDropsFor (density : ℚ) : Nat :=
  let n := goInt (density + mkRat 1 2)
  if n < 1 then 1 else n.toNat

/-- Create `n` fresh drops for one column (the inner loop of
`Engine.Resize`, with the engine fields `NewDrop` reads passed
explicitly). -/
def mkDrops (height : Nat) (minLength maxLength : Int) (charSet : List Char) :
    Nat → Rng → GoRes (List Drop × Rng)
  | 0, r => .ok ([], r)
  | n + 1, r =>
    NewDrop height minLength maxLength charSet r >>= fun p =>
    mkDrops height minLength maxLength charSet n p.2 >>= fun q => .ok (p.1 :: q.1, q.2)

/-- Create the drop lists for `cols` fresh columns (the outer loop of
`Engine.Resize`; `numDrops` is the per-column count, constant across
the loop). -/
def mkCols (height : Nat) (minLength maxLength : Int) (charSet : List Char)
    (numDrops : Nat) : Nat → Rng → GoRes (List (List Drop) × Rng)
  | 0, r => .ok ([], r)
  | c + 1, r =>
    mkDrops height minLength maxLength charSet numDrops r >>= fun p =>
    mkCols height minLength maxLength charSet numDrops c p.2 >>= fun q =>
      .ok (p.1 :: q.1, q.2)

/-- `Engine.Resize`: no-op when the dimensions are unchanged;
otherwise rebuild the whole drop grid from scratch — every column of
the new width receives `numDropsFor density` freshly created drops —
and reallocate the frame buffer at the new size. -/
def Engine.Resize (e : Engine) (height width : Nat) (r : Rng) : GoRes (Engine × Rng) :=
  if height = e.height ∧ width = e.width then .ok (e, r)
  else
    mkCols height e.minDropLength e.maxDropLength e.charSet (numDropsFor e.density)
        width r >>= fun p =>
    .ok ({ e with height := height, width := width, drops := p.1, frameBuffer := some (NewFrame height width) }, p.2)

/-- `getTrailColorIndex`: map distance-from-head to a gradient index,
`int(dist / length * N)` clamped from above to `N - 1`. -/
def getTrailColorIndex (e : Engine) (pos tail length : Int) : Int :=
  let dist := pos - tail
  let idx := goInt ((dist : ℚ) / (length : ℚ) * (e.trailColors.length : ℚ))
  if idx ≥ (e.trailColors.length : Int) then (e.trailColors.length : Int) - 1 else idx

/-- Visible row indices a drop occupies in a frame:
`max(pos - length, 0) .. min(pos, height - 1)`. -/
def dropRows (d : Drop) (f : Frame) : List Nat :=
  let startRow : Int := max (d.Pos - d.Length) 0
  let endRow : Int := min d.Pos ((f.height : Int) - 1)
  (List.range (endRow - startRow + 1).toNat).map fun k => startRow.toNat + k

/-- `drawDrop` writes the drop's character and trail color into the
frame at every visible row of its column. -/
def drawDrop (e : Engine) (d : Drop) (f : Frame) (col : Nat) : Frame :=
  (dropRows d f).foldl
    (fun fr row =>
      fr.setCell row col d.Char
        (e.trailColors.getD (getTrailColorIndex e d.Pos (row : Int) d.Length).toNat
          ⟨0, 0, 0⟩)
        false)
    f

/-- Per-drop step of `NextFrame`'s loop: a nil or inactive drop is
skipped entirely (`continue`); an active drop is updated and then
drawn if it is still active. -/
def stepDrop (e : Engine) (col : Nat) (acc : List Drop × Frame × Rng) (d : Drop) :
    GoRes (List Drop × Frame × Rng) :=
  if ¬d.Active then .ok (acc.1 ++ [d], acc.2.1, acc.2.2)
  else
    e.Update d e.height acc.2.2 >>= fun (d1, r1) =>
    .ok (acc.1 ++ [d1], if d1.Active then drawDrop e d1 acc.2.1 col else acc.2.1, r1)

/-- One column of `NextFrame`'s loop. -/
def stepColumn (e : Engine) (col : Nat) (ds : List Drop) (fb : Frame) (r : Rng) :
    GoRes (List Drop × Frame × Rng) :=
  ds.foldlM (stepDrop e col) ([], fb, r)

/-- All columns of `NextFrame`'s loop, in order. -/
def stepColumns (e : Engine) (cols : List (List Drop)) (col : Nat) (fb : Frame)
    (r : Rng) : GoRes (List (List Drop) × Frame × Rng) :=
  match cols with
  | [] => .ok ([], fb, r)
  | ds :: rest =>
    stepColumn e col ds fb r >>= fun (ds1, fb1, r1) =>
    stepColumns e rest (col + 1) fb1 r1 >>= fun (rest1, fb2, r2) =>
    .ok (ds1 :: rest1, fb2, r2)

/-- `Engine.NextFrame`: resize only when the size query succeeded with
different dimensions (an error result means no resize); clear the
frame buffer; update and draw the drops.  The produced frame is the
engine's reused `frameBuffer`. -/
def Engine.NextFrame (e : Engine) (sizeRes : Option (Nat × Nat)) (r : Rng) :
    GoRes (Engine × Rng) :=
  (match sizeRes with
   | some (h, w) =>
     if h ≠ e.height ∨ w ≠ e.width then e.Resize h w r else .ok (e, r)
   | none => .ok (e, r)) >>= fun (e1, r1) =>
  match e1.frameBuffer with
  | none => .panicked
  | some fb =>
    stepColumns e1 e1.drops 0 fb.clear r1 >>= fun (grid, fb1, r2) =>
    .ok ({ e1 with drops := grid, frameBuffer := some fb1 }, r2)

-- === HELPER LEMMAS: frame copying ===

/-- Copying a list over a destination of equal length reproduces the
source exactly. -/
theorem listCopy_eq_of_length (src dst : List α) (h : src.length = dst.length) :
    listCopy src dst = src := by
  simp [listCopy, ← h, List.take_length, List.drop_length]

/-- Copying a grid over a destination grid of identical shape
reproduces the source grid exactly. -/
theorem copyGrid_eq (w : Nat) :
    ∀ (src dst : List (List α)), src.length = dst.length →
    (∀ a ∈ src, a.length = w) → (∀ b ∈ dst, b.length = w) →
    copyGrid src dst = src := by
  intro src
  induction src with
  | nil =>
    intro dst h _ _
    have : dst = [] := List.length_eq_zero.mp h.symm
    subst this
    simp [copyGrid]
  | cons a src ih =>
    intro dst h hs hd
    cases dst with
    | nil => simp at h
    | cons b dst =>
      simp only [List.length_cons, Nat.succ.injEq] at h
      have ha : a.length = w := hs a (by simp)
      have hb : b.length = w := hd b (by simp)
      have ht := ih dst h (fun x hx => hs x (by simp [hx])) (fun x hx => hd x (by simp [hx]))
      simp only [copyGrid, List.zipWith_cons_cons, List.length_cons, List.drop_succ_cons]
      rw [listCopy_eq_of_length a b (by rw [ha, hb])]
      simp only [copyGrid] at ht
      rw [List.cons_append, ht]

/-- A freshly allocated frame is well-formed. -/
theorem NewFrame_wf (h w : Nat) : FrameWF (NewFrame h w) := by
  refine ⟨by simp [NewFrame], by simp [NewFrame], by simp [NewFrame], ?_, ?_, ?_⟩ <;>
    intro row hr <;>
    simp only [NewFrame, List.mem_replicate] at hr <;>
    simp [hr.2, NewFrame]

/-- Deep-copying a well-formed frame into a well-formed destination of
equal dimensions reproduces the source frame exactly. -/
theorem copyFrame_eq (src dst : Frame) (hs : FrameWF src) (hd : FrameWF dst)
    (hh : dst.height = src.height) (hw : dst.width = src.width) :
    copyFrame src dst = src := by
  obtain ⟨s1, s2, s3, s4, s5, s6⟩ := hs
  obtain ⟨d1, d2, d3, d4, d5, d6⟩ := hd
  have hc : copyGrid src.characters dst.characters = src.characters :=
    copyGrid_eq src.width _ _ (by omega) s4 (by intro b hb; rw [d4 b hb, hw])
  have hco : copyGrid src.colors dst.colors = src.colors :=
    copyGrid_eq src.width _ _ (by omega) s5 (by intro b hb; rw [d5 b hb, hw])
  have hbg : copyGrid src.isBackground dst.isBackground = src.isBackground :=
    copyGrid_eq src.width _ _ (by omega) s6 (by intro b hb; rw [d6 b hb, hw])
  cases src; cases dst
  simp_all [copyFrame]

/-- Behaviour of the full-render branch: it allocates the cache at the
fresh address `s.next` and leaves every other address untouched. -/
theorem Screen.drawFull_spec (s : Screen) (f : Frame) :
    (s.drawFull f).1.prevAddr = some s.next ∧ (s.drawFull f).1.next = s.next + 1 ∧
    (s.drawFull f).1.store s.next = copyFrame f (NewFrame f.height f.width) ∧
    ∀ b, b ≠ s.next → (s.drawFull f).1.store b = s.store b := by
  refine ⟨rfl, rfl, by simp [Screen.drawFull], ?_⟩
  intro b hb
  simp only [Screen.drawFull]
  exact Function.update_noteq hb _ _

/-- Core behaviour of `Screen.Draw` on a heap where the cache pointer
never aliases the live buffer: after the call the cache address is
still distinct from the live buffer's, stays inside the allocated
region, and holds an exact copy of the rendered frame; the live
buffer itself is untouched. -/
theorem Screen.draw_spec (s : Screen) (a : Nat) (hw : FrameWF (s.store a))
    (ha : a < s.next)
    (hp : ∀ pa, s.prevAddr = some pa → pa ≠ a ∧ pa < s.next ∧ FrameWF (s.store pa)) :
    ∃ pa, (s.Draw a).1.prevAddr = some pa ∧ pa ≠ a ∧ pa < (s.Draw a).1.next ∧
      a < (s.Draw a).1.next ∧ (s.Draw a).1.store pa = s.store a ∧
      (s.Draw a).1.store a = s.store a := by
  obtain ⟨f1, f2, f3, f4⟩ := s.drawFull_spec (s.store a)
  unfold Screen.Draw
  cases hpa : s.prevAddr with
  | none =>
    dsimp only
    refine ⟨s.next, f1, by omega, by omega, by omega, ?_, ?_⟩
    · rw [f3]
      exact copyFrame_eq _ _ hw (NewFrame_wf _ _) rfl rfl
    · exact f4 a (by omega)
  | some pa =>
    obtain ⟨hne, hlt, hpwf⟩ := hp pa hpa
    dsimp only
    by_cases hdim : (s.store pa).height = (s.store a).height ∧
        (s.store pa).width = (s.store a).width
    · rw [if_pos hdim]
      refine ⟨pa, ?_, hne, ?_, ?_, ?_, ?_⟩
      · simpa [Screen.writeAt] using hpa
      · simpa [Screen.writeAt] using hlt
      · simpa [Screen.writeAt] using ha
      · simp only [Screen.writeAt, Function.update_same]
        exact copyFrame_eq _ _ hw hpwf hdim.1 hdim.2
      · simp only [Screen.writeAt]
        exact Function.update_noteq (Ne.symm hne) _ _
    · rw [if_neg hdim]
      refine ⟨s.next, f1, by omega, by omega, by omega, ?_, ?_⟩
      · rw [f3]
        exact copyFrame_eq _ _ hw (NewFrame_wf _ _) rfl rfl
      · exact f4 a (by omega)

-- === CLAIM C1 ===

/-- Concrete heap used as a witness input: one allocated 1×1 frame at
address 0, no cached previous frame yet. -/
def screen0 : Screen :=
  { store := fun _ => NewFrame 1 1, next := 1, prevAddr := none }

/-- C1: after `Screen.Draw` on the frame at the live-buffer address,
the renderer's cache sits at a different heap address than the live
buffer, holds an exact deep copy of the drawn frame's cell data, and
subsequently mutating any cell (character, color or background flag)
of the live frame leaves the cached frame unchanged. -/
theorem draw_deep_copies_no_alias (s : Screen) (a : Nat) (hw : FrameWF (s.store a))
    (ha : a < s.next)
    (hp : ∀ pa, s.prevAddr = some pa → pa ≠ a ∧ pa < s.next ∧ FrameWF (s.store pa)) :
    ∃ pa, (s.Draw a).1.prevAddr = some pa ∧ pa ≠ a ∧
      ((s.Draw a).1.store pa).characters = (s.store a).characters ∧
      ((s.Draw a).1.store pa).colors = (s.store a).colors ∧
      ((s.Draw a).1.store pa).isBackground = (s.store a).isBackground ∧
      ∀ r c ch col bg,
        (((s.Draw a).1.mutateCell a r c ch col bg).store pa) = ((s.Draw a).1.store pa) := by
  obtain ⟨pa, h1, h2, _, _, h5, _⟩ := s.draw_spec a hw ha hp
  refine ⟨pa, h1, h2, by rw [h5], by rw [h5], by rw [h5], ?_⟩
  intro r c ch col bg
  simp only [Screen.mutateCell, Screen.writeAt]
  exact Function.update_noteq h2 _ _

/-- Witness for C1 at a concrete heap: live buffer at address 0 of a
fresh one-cell frame. -/
theorem draw_deep_copies_no_alias_witness :
    ∃ pa, (screen0.Draw 0).1.prevAddr = some pa ∧ pa ≠ 0 ∧
      ((screen0.Draw 0).1.store pa).characters = (screen0.store 0).characters ∧
      ((screen0.Draw 0).1.store pa).colors = (screen0.store 0).colors ∧
      ((screen0.Draw 0).1.store pa).isBackground = (screen0.store 0).isBackground ∧
      ∀ r c ch col bg,
        (((screen0.Draw 0).1.mutateCell 0 r c ch col bg).store pa) =
          ((screen0.Draw 0).1.store pa) :=
  draw_deep_copies_no_alias screen0 0 (by decide) (by decide)
    (by intro pa h; cases h)

-- === CLAIM C8 ===

/-- A fold whose step fixes every state is the identity. -/
theorem foldl_fix {g : γ → β → γ} :
    ∀ (l : List β) (st : γ), (∀ st' x, x ∈ l → g st' x = st') → l.foldl g st = st := by
  intro l
  induction l with
  | nil => intro st _; rfl
  | cons x l ih =>
    intro st h
    rw [List.foldl_cons, h st x (by simp)]
    exact ih st fun st' y hy => h st' y (by simp [hy])

/-- When every cell of the frame equals the cached previous frame in
character and color, `deltaRender` emits nothing at all. -/
theorem deltaRender_empty (prev f : Frame)
    (hc : ∀ r c, r < f.height → c < f.width →
      f.charAt r c = prev.charAt r c ∧ f.colorAt r c = prev.colorAt r c) :
    deltaRender prev f = "" := by
  unfold deltaRender
  dsimp only
  rw [foldl_fix]
  · rfl
  · intro st col hcol
    rw [foldl_fix]
    intro st' row hrow
    have hr := List.mem_range.mp hrow
    have hco := List.mem_range.mp hcol
    obtain ⟨h1, h2⟩ := hc row col hr hco
    simp [deltaCell, h1, h2]

/-- The delta branch of `Screen.Draw`: when a cached frame exists at
`pa` with the live frame's dimensions, the bytes written are exactly
`deltaRender` of cache against live frame. -/
theorem Screen.draw_snd_delta (s : Screen) (a pa : Nat) (hpa : s.prevAddr = some pa)
    (hdim : (s.store pa).height = (s.store a).height ∧
      (s.store pa).width = (s.store a).width) :
    (s.Draw a).2 = deltaRender (s.store pa) (s.store a) := by
  unfold Screen.Draw
  rw [hpa]
  dsimp only
  rw [if_pos hdim]

/-- Concrete heap used as the C8 witness input: a 1×1 live frame at
address 0 and no cache. -/
def screen8 : Screen :=
  { store := fun _ => NewFrame 1 1, next := 1, prevAddr := none }

/-- C8: after `Screen.Draw` of the live frame, drawing again with a
frame of the same dimensions that is cell-for-cell equal (character,
color and background flag) writes no bytes at all to the output sink:
no cursor-position sequences, no color sequences, no trailing reset. -/
theorem second_draw_of_equal_frame_silent (s : Screen) (a : Nat) (f' : Frame)
    (hw : FrameWF (s.store a)) (ha : a < s.next)
    (hp : ∀ pa, s.prevAddr = some pa → pa ≠ a ∧ pa < s.next ∧ FrameWF (s.store pa))
    (hh : f'.height = (s.store a).height) (hwd : f'.width = (s.store a).width)
    (hc : ∀ r c, r < f'.height → c < f'.width →
      f'.charAt r c = (s.store a).charAt r c ∧ f'.colorAt r c = (s.store a).colorAt r c ∧
      f'.bgAt r c = (s.store a).bgAt r c) :
    ((((s.Draw a).1.writeAt a f').Draw a)).2 = "" := by
  obtain ⟨pa, h1, h2, _, _, h5, _⟩ := s.draw_spec a hw ha hp
  have hsa : (((s.Draw a).1.writeAt a f').store a) = f' := by
    simp [Screen.writeAt]
  have hspa : (((s.Draw a).1.writeAt a f').store pa) = s.store a := by
    simp only [Screen.writeAt]
    rw [Function.update_noteq h2, h5]
  have hprev : (((s.Draw a).1.writeAt a f')).prevAddr = some pa := by
    simpa [Screen.writeAt] using h1
  rw [Screen.draw_snd_delta _ a pa hprev (by rw [hsa, hspa, hh, hwd]; exact ⟨rfl, rfl⟩)]
  rw [hsa, hspa]
  exact deltaRender_empty _ _ fun r c hr hc' =>
    ⟨(hc r c hr hc').1, (hc r c hr hc').2.1⟩

/-- Witness for C8: a fresh 1×1 frame drawn twice. -/
theorem second_draw_of_equal_frame_silent_witness :
    ((((screen8.Draw 0).1.writeAt 0 (NewFrame 1 1)).Draw 0)).2 = "" :=
  second_draw_of_equal_frame_silent screen8 0 (NewFrame 1 1) (by decide) (by decide)
    (by intro pa h; cases h) rfl rfl
    (fun r c hr hc => ⟨rfl, rfl, rfl⟩)

-- === CLAIM C7 ===

/-- A dimmed channel value is monotone in the (non-negative) fade
factor. -/
theorem dimChan_mono (v : Nat) (f1 f2 : ℚ) (h0 : 0 ≤ f2) (h : f2 ≤ f1) :
    dimChan v f2 ≤ dimChan v f1 := by
  have hv : (0 : ℚ) ≤ (v : ℚ) := by positivity
  have h1 : (0 : ℚ) ≤ (v : ℚ) * f2 := mul_nonneg hv h0
  have hm : (v : ℚ) * f2 ≤ (v : ℚ) * f1 := mul_le_mul_of_nonneg_left h hv
  have h2 : (0 : ℚ) ≤ (v : ℚ) * f1 := le_trans h1 hm
  unfold dimChan goInt
  rw [if_pos h1, if_pos h2]
  exact Int.toNat_le_toNat (Int.floor_le_floor hm)

/-- Index `i` of the computed gradient is the base color dimmed by
`1 - (i / steps) * 0.8`. -/
theorem calcTrailColors_getD (c : Color) (steps i : Nat) (hi : i < steps) :
    (calcTrailColors c steps).getD i ⟨0, 0, 0⟩ =
      dim c (1 - (i : ℚ) / (steps : ℚ) * (8 / 10)) := by
  have hlen : i < (calcTrailColors c steps).length := by
    unfold calcTrailColors
    rw [List.length_map, List.length_range]
    exact hi
  rw [List.getD_eq_getElem _ _ hlen]
  unfold calcTrailColors
  rw [List.getElem_map, List.getElem_range]

/-- C7: for every base color, the precomputed trail gradient is
monotonically non-increasing in brightness (sum of the R, G, B
channels) from the head to the tail of the trail.  The engine uses
`steps = 5`; the statement covers any step count. -/
theorem trailColors_brightness_antitone (c : Color) (steps i j : Nat)
    (hij : i ≤ j) (hj : j < steps) :
    ((calcTrailColors c steps).getD j ⟨0, 0, 0⟩).brightness ≤
      ((calcTrailColors c steps).getD i ⟨0, 0, 0⟩).brightness := by
  have hi : i < steps := lt_of_le_of_lt hij hj
  have hsn : 0 < steps := lt_of_le_of_lt (Nat.zero_le j) hj
  have hsteps : (0 : ℚ) < (steps : ℚ) := by exact_mod_cast hsn
  have hdivle : (j : ℚ) / (steps : ℚ) ≤ 1 := by
    rw [div_le_one hsteps]
    exact_mod_cast le_of_lt hj
  have hdivmono : (i : ℚ) / (steps : ℚ) ≤ (j : ℚ) / (steps : ℚ) := by
    rw [div_le_div_iff_of_pos_right hsteps]
    exact_mod_cast hij
  have h0 : (0 : ℚ) ≤ 1 - (j : ℚ) / (steps : ℚ) * (8 / 10) := by nlinarith
  have hmono : 1 - (j : ℚ) / (steps : ℚ) * (8 / 10) ≤
      1 - (i : ℚ) / (steps : ℚ) * (8 / 10) := by nlinarith
  rw [calcTrailColors_getD c steps i hi, calcTrailColors_getD c steps j hj]
  unfold dim Color.brightness
  dsimp only
  have hR := dimChan_mono c.R _ _ h0 hmono
  have hG := dimChan_mono c.G _ _ h0 hmono
  have hB := dimChan_mono c.B _ _ h0 hmono
  omega

/-- Witness for C7: the default green base color at the engine's
gradient size of 5 steps, indices 1 ≤ 3. -/
theorem trailColors_brightness_antitone_witness :
    ((calcTrailColors ⟨0, 255, 0⟩ 5).getD 3 ⟨0, 0, 0⟩).brightness ≤
      ((calcTrailColors ⟨0, 255, 0⟩ 5).getD 1 ⟨0, 0, 0⟩).brightness :=
  trailColors_brightness_antitone ⟨0, 255, 0⟩ 5 1 3 (by decide) (by decide)

-- === CLAIM C4 ===

/-- Concrete engine used by the C4 analysis: fixed drop length 8 so
the freshly drawn length always differs from the old length 5. -/
def engine4 : Engine :=
  { height := 10, width := 1, baseColor := ⟨0, 255, 0⟩,
    trailColors := calcTrailColors ⟨0, 255, 0⟩ 5,
    drops := [[⟨15, 5, 'A', true⟩]], charSet := ['A'],
    density := 1, frameBuffer := some (NewFrame 10 1),
    minDropLength := 8, maxDropLength := 8,
    reactivateChance := mkRat 1 100, pauseChance := mkRat 1 10 }

/-- C4 counterexample: a drop of length 5 resets when its head passes
the bottom, and the code sets the new position to -5 — the negative of
the OLD length — while the newly drawn length is 8, so the position is
not the negative of the newly drawn length as the claim states. -/
theorem update_reset_uses_old_length_cex :
    Engine.Update engine4 ⟨15, 5, 'A', true⟩ 10 ⟨[0, 0], [1]⟩ =
      .ok (⟨-5, 8, 'A', true⟩, ⟨[], []⟩) ∧ (-5 : Int) ≠ -(8 : Int) := by
  decide

/-- C4 (amended): one update step of an active drop increments the
position; when the head has passed `height + length` the drop resets
with position equal to the negative of its PREVIOUS length, a fresh
random length in `[minLength, maxLength]` and a fresh character, and
only on this reset event is the pause chance rolled (a normal fall
step leaves the random source untouched and the drop active). -/
theorem update_active_step (e : Engine) (d : Drop) (height : Nat) (r : Rng)
    (hA : d.Active = true) (hml : e.minDropLength ≤ e.maxDropLength)
    (hcs : e.charSet ≠ []) :
    (d.Pos + 1 - d.Length ≤ (height : Int) →
      e.Update d height r = .ok ({ d with Pos := d.Pos + 1 }, r)) ∧
    (d.Pos + 1 - d.Length > (height : Int) →
      ∃ d' r', e.Update d height r = .ok (d', r') ∧
        d'.Pos = -d.Length ∧
        e.minDropLength ≤ d'.Length ∧ d'.Length ≤ e.maxDropLength ∧
        d'.Char ∈ e.charSet ∧
        (d'.Active = false ↔ r.floats.headD 0 < e.pauseChance)) := by
  have hlen : 0 < e.charSet.length := List.length_pos.mpr hcs
  have hb1 : ¬(e.maxDropLength - e.minDropLength + 1 ≤ 0) := by omega
  have hb2 : ¬((e.charSet.length : Int) ≤ 0) := by omega
  constructor
  · intro hle
    unfold Engine.Update
    rw [hA, if_neg (fun h => h rfl), if_neg (not_lt.mpr hle)]
  · intro hgt
    unfold Engine.Update
    rw [hA, if_neg (fun h => h rfl), if_pos hgt]
    unfold Rng.intn
    rw [if_neg hb1]
    dsimp only
    rw [if_neg hb2]
    dsimp only
    have hq1nn : (0 : Int) ≤ (r.ints.headD 0 : Int) % (e.maxDropLength - e.minDropLength + 1) :=
      Int.emod_nonneg _ (by omega)
    have hq1lt : (r.ints.headD 0 : Int) % (e.maxDropLength - e.minDropLength + 1) <
        e.maxDropLength - e.minDropLength + 1 := Int.emod_lt_of_pos _ (by omega)
    have hq2nn : (0 : Int) ≤ (r.ints.tail.headD 0 : Int) % (e.charSet.length : Int) :=
      Int.emod_nonneg _ (by omega)
    have hq2lt : (r.ints.tail.headD 0 : Int) % (e.charSet.length : Int) <
        (e.charSet.length : Int) := Int.emod_lt_of_pos _ (by omega)
    have hidx : ((r.ints.tail.headD 0 : Int) % (e.charSet.length : Int)).toNat
        < e.charSet.length := by omega
    refine ⟨_, _, rfl, rfl, ?_, ?_, ?_, ?_⟩
    · dsimp only
      omega
    · dsimp only
      omega
    · dsimp only
      rw [List.getD_eq_getElem _ _ hidx]
      exact List.getElem_mem _
    · dsimp only
      by_cases hroll : r.floats.headD 0 < e.pauseChance
      · simp [Rng.float64, hroll]
      · simp [Rng.float64, hroll]

/-- Witness for C4's amended theorem: a plain fall step and a reset
step of concrete drops. -/
theorem update_active_step_witness :
    (Engine.Update engine4 ⟨3, 5, 'A', true⟩ 10 ⟨[0], [0]⟩ =
      .ok ({ (⟨3, 5, 'A', true⟩ : Drop) with Pos := (3 : Int) + 1 }, ⟨[0], [0]⟩)) ∧
    (∃ d' r', Engine.Update engine4 ⟨15, 5, 'A', true⟩ 10 ⟨[0, 0], [1]⟩ = .ok (d', r') ∧
      d'.Pos = -(5 : Int) ∧
      engine4.minDropLength ≤ d'.Length ∧ d'.Length ≤ engine4.maxDropLength ∧
      d'.Char ∈ engine4.charSet ∧
      (d'.Active = false ↔ (Rng.mk [0, 0] [1]).floats.headD 0 < engine4.pauseChance)) :=
  ⟨(update_active_step engine4 ⟨3, 5, 'A', true⟩ 10 ⟨[0], [0]⟩ rfl (by decide)
      (by decide)).1 (by decide),
   (update_active_step engine4 ⟨15, 5, 'A', true⟩ 10 ⟨[0, 0], [1]⟩ rfl (by decide)
      (by decide)).2 (by decide)⟩

-- === CLAIM C3 ===

/-- The single inactive drop of the C3 engine. -/
def dropInactive : Drop := ⟨0, 3, 'A', false⟩

/-- Concrete engine whose only drop is inactive. -/
def engine3 : Engine :=
  { height := 2, width := 1, baseColor := ⟨0, 255, 0⟩,
    trailColors := calcTrailColors ⟨0, 255, 0⟩ 5,
    drops := [[dropInactive]], charSet := ['A'],
    density := 1, frameBuffer := some (NewFrame 2 1),
    minDropLength := 3, maxDropLength := 3,
    reactivateChance := mkRat 1 100, pauseChance := mkRat 1 10 }

/-- C3: the `NextFrame` loop `continue`s past every inactive drop
before calling `Update`, so for EVERY random stream a tick leaves an
inactive drop exactly as it was — its reactivation probability on a
tick is zero, not nonzero as claimed.  The second conjunct shows the
claim correctly describes `Update` itself: called directly on the
inactive drop with a low roll, it reactivates at position 0 with a
fresh length and character — but `NextFrame` never calls it. -/
theorem nextFrame_never_reactivates_inactive :
    (∀ ints floats, Engine.NextFrame engine3 none ⟨ints, floats⟩ =
      .ok ({ engine3 with frameBuffer := some ((NewFrame 2 1).clear) }, ⟨ints, floats⟩)) ∧
    Engine.Update engine3 dropInactive 2 ⟨[0, 0], [0]⟩ =
      .ok (⟨0, 3, 'A', true⟩, ⟨[], []⟩) := by
  constructor
  · intro ints floats
    rfl
  · unfold Engine.Update
    rw [show engine3.density = (1 : ℚ) from rfl, mul_one]
    decide


-- === CLAIM C2 ===

/-- Bind on a normal result applies the continuation. -/
theorem GoRes.ok_bind (a : α) (f : α → GoRes β) : (GoRes.ok a >>= f) = f a := rfl

/-- Bind on an error propagates it. -/
theorem GoRes.err_bind (s : String) (f : α → GoRes β) : (GoRes.err s >>= f) = GoRes.err s := rfl

/-- Bind on a panic propagates it. -/
theorem GoRes.panicked_bind (f : α → GoRes β) : (GoRes.panicked >>= f) = GoRes.panicked := rfl

/-- The per-column drop count at the default-style integer density 1:
`int(1 + 0.5) = 1`. -/
theorem numDropsFor_one : numDropsFor 1 = 1 := by
  unfold numDropsFor goInt
  have h1 : (1 : ℚ) + mkRat 1 2 = 3 / 2 := by
    rw [Rat.mkRat_eq_div]
    norm_num
  have h2 : (0 : ℚ) ≤ 3 / 2 := by norm_num
  have h3 : ⌊(3 : ℚ) / 2⌋ = 1 := by
    rw [Int.floor_eq_iff] <;> norm_num
  rw [h1, if_pos h2, h3]
  rfl

/-- A successful `mkDrops` returns exactly `n` drops. -/
theorem mkDrops_ok_length (height : Nat) (minL maxL : Int) (cs : List Char) :
    ∀ (n : Nat) (r : Rng) (ds : List Drop) (r1 : Rng),
      mkDrops height minL maxL cs n r = .ok (ds, r1) → ds.length = n := by
  intro n
  induction n with
  | zero =>
    intro r ds r1 h
    unfold mkDrops at h
    cases h
    rfl
  | succ n ih =>
    intro r ds r1 h
    unfold mkDrops at h
    cases hnd : NewDrop height minL maxL cs r with
    | ok p =>
      rw [hnd, GoRes.ok_bind] at h
      cases hmk : mkDrops height minL maxL cs n p.2 with
      | ok q =>
        rw [hmk, GoRes.ok_bind] at h
        cases h
        simp [ih p.2 q.1 q.2 (by rw [hmk])]
      | err m => rw [hmk, GoRes.err_bind] at h; cases h
      | panicked => rw [hmk, GoRes.panicked_bind] at h; cases h
    | err m => rw [hnd, GoRes.err_bind] at h; cases h
    | panicked => rw [hnd, GoRes.panicked_bind] at h; cases h

/-- A successful `mkCols` returns one drop list per column, each with
exactly `numDrops` drops. -/
theorem mkCols_ok_spec (height : Nat) (minL maxL : Int) (cs : List Char) (numDrops : Nat) :
    ∀ (cols : Nat) (r : Rng) (grid : List (List Drop)) (r1 : Rng),
      mkCols height minL maxL cs numDrops cols r = .ok (grid, r1) →
      grid.length = cols ∧ ∀ i, i < cols → (grid.getD i []).length = numDrops := by
  intro cols
  induction cols with
  | zero =>
    intro r grid r1 h
    unfold mkCols at h
    cases h
    exact ⟨rfl, by intro i hi; omega⟩
  | succ c ih =>
    intro r grid r1 h
    unfold mkCols at h
    cases hmk : mkDrops height minL maxL cs numDrops r with
    | ok p =>
      rw [hmk, GoRes.ok_bind] at h
      cases hmc : mkCols height minL maxL cs numDrops c p.2 with
      | ok q =>
        rw [hmc, GoRes.ok_bind] at h
        cases h
        obtain ⟨hlen, hcols⟩ := ih p.2 q.1 q.2 (by rw [hmc])
        refine ⟨by simp [hlen], ?_⟩
        intro i hi
        cases i with
        | zero => simpa using mkDrops_ok_length height minL maxL cs _ r p.1 p.2 (by rw [hmk])
        | succ i => simpa using hcols i (by omega)
      | err m => rw [hmc, GoRes.err_bind] at h; cases h
      | panicked => rw [hmc, GoRes.panicked_bind] at h; cases h
    | err m => rw [hmk, GoRes.err_bind] at h; cases h
    | panicked => rw [hmk, GoRes.panicked_bind] at h; cases h

/-- C2 (amended): when the dimensions changed, `Engine.Resize`
discards the entire existing drop grid — its result is independent of
the previous drops of every column, surviving or not — and every
column of the new width receives `numDropsFor density` freshly created
drops. -/
theorem resize_discards_existing_columns (e : Engine) (ds : List (List Drop))
    (h w : Nat) (r : Rng) (hch : ¬(h = e.height ∧ w = e.width)) :
    Engine.Resize { e with drops := ds } h w r = Engine.Resize e h w r ∧
    (∀ e' r', Engine.Resize e h w r = .ok (e', r') →
      ∀ col, col < w → (e'.drops.getD col []).length = numDropsFor e.density) := by
  constructor
  · unfold Engine.Resize
    rw [if_neg hch, if_neg hch]
  · intro e' r' hres col hcol
    unfold Engine.Resize at hres
    rw [if_neg hch] at hres
    cases hmk : mkCols h e.minDropLength e.maxDropLength e.charSet
        (numDropsFor e.density) w r with
    | ok p =>
      rw [hmk, GoRes.ok_bind] at hres
      cases hres
      exact (mkCols_ok_spec h e.minDropLength e.maxDropLength e.charSet
        (numDropsFor e.density) w r p.1 p.2 (by rw [hmk])).2 col hcol
    | err m => rw [hmk, GoRes.err_bind] at hres; cases hres
    | panicked => rw [hmk, GoRes.panicked_bind] at hres; cases hres

/-- Concrete engine for the C2 counterexample: one column holding one
known drop with character X, which resizing to width 2 re-randomizes. -/
def engine2 : Engine :=
  { height := 4, width := 1, baseColor := ⟨0, 255, 0⟩,
    trailColors := [⟨0, 255, 0⟩],
    drops := [[⟨0, 3, 'X', true⟩]], charSet := ['A'],
    density := 1, frameBuffer := some (NewFrame 4 1),
    minDropLength := 2, maxDropLength := 2,
    reactivateChance := mkRat 1 100, pauseChance := mkRat 1 10 }

/-- C2 counterexample: growing the grid from width 1 to width 2 (same
height) replaces the surviving column 0's drop list with freshly
randomized drops instead of preserving it. -/
theorem resize_rerandomizes_surviving_column_cex :
    (match Engine.Resize engine2 4 2 ⟨[0, 0, 0, 0, 0, 0, 0, 0], []⟩ with
     | .ok (e', _) => e'.drops.getD 0 []
     | _ => []) ≠ engine2.drops.getD 0 [] := by
  have hn : numDropsFor engine2.density = 1 := numDropsFor_one
  unfold Engine.Resize
  rw [if_neg (by decide), hn]
  decide

/-- Witness for C2's amended theorem at the same concrete resize. -/
theorem resize_discards_existing_columns_witness :
    (Engine.Resize { engine2 with drops := [[⟨7, 9, 'Z', false⟩]] } 4 2
        ⟨[0, 0, 0, 0, 0, 0, 0, 0], []⟩ =
      Engine.Resize engine2 4 2 ⟨[0, 0, 0, 0, 0, 0, 0, 0], []⟩) ∧
    (∀ e' r', Engine.Resize engine2 4 2 ⟨[0, 0, 0, 0, 0, 0, 0, 0], []⟩ = .ok (e', r') →
      ∀ col, col < 2 → (e'.drops.getD col []).length = numDropsFor engine2.density) :=
  resize_discards_existing_columns engine2 [[⟨7, 9, 'Z', false⟩]] 4 2
    ⟨[0, 0, 0, 0, 0, 0, 0, 0], []⟩ (by decide)

-- === CLAIM C5 ===

/-- The per-column drop count at the fractional density 1.3:
`int(1.3 + 0.5) = int(1.8) = 1`. -/
theorem numDropsFor_thirteen_tenths : numDropsFor (mkRat 13 10) = 1 := by
  unfold numDropsFor goInt
  have h1 : (mkRat 13 10 : ℚ) + mkRat 1 2 = 9 / 5 := by
    rw [Rat.mkRat_eq_div, Rat.mkRat_eq_div]
    norm_num
  have h2 : (0 : ℚ) ≤ 9 / 5 := by norm_num
  have h3 : ⌊(9 : ℚ) / 5⌋ = 1 := by
    rw [Int.floor_eq_iff]
    constructor <;> norm_num
  rw [h1, if_pos h2, h3]
  rfl

/-- Helper: any successful dimension-changing resize gives every new
column exactly `numDropsFor density` drops, whatever the stream. -/
theorem resize_ok_col_count (e : Engine) (h w : Nat) (r : Rng) (e' : Engine) (r' : Rng)
    (hch : ¬(h = e.height ∧ w = e.width))
    (hres : Engine.Resize e h w r = .ok (e', r')) :
    ∀ col, col < w → (e'.drops.getD col []).length = numDropsFor e.density := by
  intro col hcol
  unfold Engine.Resize at hres
  rw [if_neg hch] at hres
  cases hmk : mkCols h e.minDropLength e.maxDropLength e.charSet
      (numDropsFor e.density) w r with
  | ok p =>
    rw [hmk, GoRes.ok_bind] at hres
    cases hres
    exact (mkCols_ok_spec h e.minDropLength e.maxDropLength e.charSet
      (numDropsFor e.density) w r p.1 p.2 (by rw [hmk])).2 col hcol
  | err m => rw [hmk, GoRes.err_bind] at hres; cases hres
  | panicked => rw [hmk, GoRes.panicked_bind] at hres; cases hres

/-- C5 (amended): the number of drops `Engine.Resize` places in a
column is the deterministic value `int(density + 0.5)` floored at 1
(`numDropsFor`): it is identical for every column and for every random
stream — the fractional part of the density is never resolved by a
random roll. -/
theorem resize_col_count_deterministic (e : Engine) (h w : Nat) (r1 r2 : Rng)
    (e1 e2 : Engine) (s1 s2 : Rng) (hch : ¬(h = e.height ∧ w = e.width))
    (h1 : Engine.Resize e h w r1 = .ok (e1, s1))
    (h2 : Engine.Resize e h w r2 = .ok (e2, s2)) :
    ∀ c1 c2, c1 < w → c2 < w →
      (e1.drops.getD c1 []).length = numDropsFor e.density ∧
      (e1.drops.getD c1 []).length = (e2.drops.getD c2 []).length := by
  intro c1 c2 hc1 hc2
  have ha := resize_ok_col_count e h w r1 e1 s1 hch h1 c1 hc1
  have hb := resize_ok_col_count e h w r2 e2 s2 hch h2 c2 hc2
  exact ⟨ha, by rw [ha, hb]⟩

/-- Concrete engine for C5: fractional density 1.3, for which the
claim predicts per-column counts that vary across random streams. -/
def engine5 : Engine :=
  { height := 4, width := 1, baseColor := ⟨0, 255, 0⟩,
    trailColors := [⟨0, 255, 0⟩],
    drops := [[⟨0, 3, 'X', true⟩]], charSet := ['A'],
    density := mkRat 13 10, frameBuffer := some (NewFrame 4 1),
    minDropLength := 2, maxDropLength := 2,
    reactivateChance := mkRat 1 100, pauseChance := mkRat 1 10 }

/-- C5 counterexample: at density 1.3 (nonzero fractional part) there
are NO two random streams and columns with different per-column drop
counts — the count is always `int(1.8) = 1`, so it is not a weighted
random resolution of the fractional part and its expected value is 1,
not 1.3. -/
theorem resize_count_same_for_all_streams_cex :
    ¬ ∃ (r1 r2 : Rng) (e1 e2 : Engine) (s1 s2 : Rng) (c1 c2 : Nat),
      Engine.Resize engine5 4 2 r1 = .ok (e1, s1) ∧
      Engine.Resize engine5 4 2 r2 = .ok (e2, s2) ∧
      c1 < 2 ∧ c2 < 2 ∧
      (e1.drops.getD c1 []).length ≠ (e2.drops.getD c2 []).length := by
  rintro ⟨r1, r2, e1, e2, s1, s2, c1, c2, h1, h2, hc1, hc2, hne⟩
  have ha := resize_ok_col_count engine5 4 2 r1 e1 s1 (by decide) h1 c1 hc1
  have hb := resize_ok_col_count engine5 4 2 r2 e2 s2 (by decide) h2 c2 hc2
  exact hne (by rw [ha, hb])

/-- First concrete result engine of the C5 witness resize. -/
def engine5A : Engine :=
  { engine5 with
    height := 4, width := 2,
    drops := [[⟨0, 2, 'A', true⟩], [⟨0, 2, 'A', true⟩]],
    frameBuffer := some (NewFrame 4 2) }

/-- Second concrete result engine of the C5 witness resize (from a
different random stream: different positions, same count). -/
def engine5B : Engine :=
  { engine5 with
    height := 4, width := 2,
    drops := [[⟨1, 2, 'A', true⟩], [⟨1, 2, 'A', true⟩]],
    frameBuffer := some (NewFrame 4 2) }

/-- Witness for C5's amended theorem: two concrete resizes of the
density-1.3 engine from different streams, compared at columns 0, 1. -/
theorem resize_col_count_deterministic_witness :
    ((engine5A.drops.getD 0 []).length = numDropsFor engine5.density ∧
     (engine5A.drops.getD 0 []).length = (engine5B.drops.getD 1 []).length) :=
  resize_col_count_deterministic engine5 4 2 ⟨[0, 0, 0, 0, 0, 0, 0, 0], []⟩
    ⟨[1, 0, 1, 0, 1, 0, 1, 0], []⟩ engine5A engine5B ⟨[], []⟩ ⟨[], []⟩
    (by decide)
    (by
      unfold Engine.Resize
      rw [if_neg (by decide),
        (show numDropsFor engine5.density = 1 from numDropsFor_thirteen_tenths)]
      decide)
    (by
      unfold Engine.Resize
      rw [if_neg (by decide),
        (show numDropsFor engine5.density = 1 from numDropsFor_thirteen_tenths)]
      decide)
    0 1 (by decide) (by decide)

-- === CLAIM C9 ===

/-- `drawDrop` never changes the frame's dimension fields. -/
theorem drawDrop_dims (e : Engine) (d : Drop) (f : Frame) (col : Nat) :
    (drawDrop e d f col).height = f.height ∧ (drawDrop e d f col).width = f.width := by
  unfold drawDrop
  generalize dropRows d f = rows
  induction rows generalizing f with
  | nil => exact ⟨rfl, rfl⟩
  | cons row rows ih =>
    rw [List.foldl_cons]
    exact ih _

/-- `Engine.Update` always returns normally when the configured
character set is non-empty and the length bounds are ordered. -/
theorem update_ok (e : Engine) (height : Nat) (hcs : e.charSet ≠ [])
    (hml : e.minDropLength ≤ e.maxDropLength) :
    ∀ (d : Drop) (r : Rng), ∃ p, e.Update d height r = .ok p := by
  intro d r
  have hlen : 0 < e.charSet.length := List.length_pos.mpr hcs
  have hb1 : ¬(e.maxDropLength - e.minDropLength + 1 ≤ 0) := by omega
  have hb2 : ¬((e.charSet.length : Int) ≤ 0) := by omega
  unfold Engine.Update
  cases hA : d.Active with
  | false =>
    rw [if_pos (by simp)]
    unfold Rng.float64
    dsimp only
    by_cases hroll : r.floats.headD 0 < e.reactivateChance * e.density
    · rw [if_pos hroll]
      unfold Rng.intn
      rw [if_neg hb1]
      dsimp only
      rw [if_neg hb2]
      exact ⟨_, rfl⟩
    · rw [if_neg hroll]
      exact ⟨_, rfl⟩
  | true =>
    rw [if_neg (fun h => h rfl)]
    by_cases hgt : d.Pos + 1 - d.Length > (height : Int)
    · rw [if_pos hgt]
      unfold Rng.intn
      rw [if_neg hb1]
      dsimp only
      rw [if_neg hb2]
      exact ⟨_, rfl⟩
    · rw [if_neg hgt]
      exact ⟨_, rfl⟩

/-- One `stepDrop` always returns normally, appends exactly one drop,
and keeps the frame dimensions. -/
theorem stepDrop_ok (e : Engine) (col : Nat) (hcs : e.charSet ≠ [])
    (hml : e.minDropLength ≤ e.maxDropLength) (acc : List Drop × Frame × Rng) (d : Drop) :
    ∃ out, stepDrop e col acc d = .ok out ∧ out.1.length = acc.1.length + 1 ∧
      out.2.1.height = acc.2.1.height ∧ out.2.1.width = acc.2.1.width := by
  unfold stepDrop
  by_cases hA : d.Active = true
  · rw [if_neg (by simp [hA])]
    obtain ⟨⟨d1, r1⟩, hupd⟩ := update_ok e e.height hcs hml d acc.2.2
    rw [hupd, GoRes.ok_bind]
    refine ⟨_, rfl, by simp, ?_, ?_⟩ <;>
      by_cases hA1 : d1.Active = true <;>
      simp [hA1, (drawDrop_dims e d1 acc.2.1 col).1, (drawDrop_dims e d1 acc.2.1 col).2]
  · rw [if_pos (by simpa using hA)]
    exact ⟨_, rfl, by simp, rfl, rfl⟩

/-- The per-column fold of `NextFrame` always returns normally,
preserves the number of drops and the frame dimensions. -/
theorem foldDrops_ok (e : Engine) (col : Nat) (hcs : e.charSet ≠ [])
    (hml : e.minDropLength ≤ e.maxDropLength) :
    ∀ (ds : List Drop) (acc : List Drop × Frame × Rng),
      ∃ out, List.foldlM (stepDrop e col) acc ds = .ok out ∧
        out.1.length = acc.1.length + ds.length ∧
        out.2.1.height = acc.2.1.height ∧ out.2.1.width = acc.2.1.width := by
  intro ds
  induction ds with
  | nil => intro acc; exact ⟨acc, rfl, by simp, rfl, rfl⟩
  | cons d ds ih =>
    intro acc
    rw [List.foldlM_cons]
    obtain ⟨out1, hstep, hlen1, hh1, hw1⟩ := stepDrop_ok e col hcs hml acc d
    rw [hstep, GoRes.ok_bind]
    obtain ⟨out2, hfold, hlen2, hh2, hw2⟩ := ih out1
    refine ⟨out2, hfold, by simp [hlen2, hlen1]; omega, by rw [hh2, hh1], by rw [hw2, hw1]⟩

/-- `stepColumns` always returns normally, preserves the grid shape
and the frame dimensions. -/
theorem stepColumns_ok (e : Engine) (hcs : e.charSet ≠ [])
    (hml : e.minDropLength ≤ e.maxDropLength) :
    ∀ (cols : List (List Drop)) (col : Nat) (fb : Frame) (r : Rng),
      ∃ grid fb1 r1, stepColumns e cols col fb r = .ok (grid, fb1, r1) ∧
        grid.length = cols.length ∧
        (∀ i, (grid.getD i []).length = (cols.getD i []).length) ∧
        fb1.height = fb.height ∧ fb1.width = fb.width := by
  intro cols
  induction cols with
  | nil =>
    intro col fb r
    exact ⟨[], fb, r, rfl, rfl, fun i => rfl, rfl, rfl⟩
  | cons ds rest ih =>
    intro col fb r
    unfold stepColumns stepColumn
    obtain ⟨⟨ds1, fb1, r1⟩, hfold, hlen1, hh1, hw1⟩ := foldDrops_ok e col hcs hml ds ([], fb, r)
    rw [hfold, GoRes.ok_bind]
    dsimp only
    obtain ⟨grid2, fb2, r2, hrest, hlen2, hcols2, hh2, hw2⟩ := ih (col + 1) fb1 r1
    rw [hrest, GoRes.ok_bind]
    dsimp only
    refine ⟨ds1 :: grid2, fb2, r2, rfl, by simp [hlen2], ?_, by rw [hh2, hh1], by rw [hw2, hw1]⟩
    intro i
    cases i with
    | zero => simpa using hlen1
    | succ i => simpa using hcols2 i

/-- C9: when the terminal size query fails during a tick, `NextFrame`
performs no resize — the cached height and width, the drop grid's
shape, and the frame buffer's dimensions are all kept — the error is
not propagated, and the tick completes normally producing a frame. -/
theorem nextFrame_size_error_keeps_state (e : Engine) (fb : Frame) (r : Rng)
    (hfb : e.frameBuffer = some fb) (hcs : e.charSet ≠ [])
    (hml : e.minDropLength ≤ e.maxDropLength) :
    ∃ e' r', Engine.NextFrame e none r = .ok (e', r') ∧
      e'.height = e.height ∧ e'.width = e.width ∧
      e'.drops.length = e.drops.length ∧
      (∀ i, (e'.drops.getD i []).length = (e.drops.getD i []).length) ∧
      ∃ fb1, e'.frameBuffer = some fb1 ∧ fb1.height = fb.height ∧ fb1.width = fb.width := by
  unfold Engine.NextFrame
  rw [GoRes.ok_bind]
  dsimp only
  rw [hfb]
  dsimp only
  obtain ⟨grid, fb1, r1, hsc, hlen, hcols, hh, hw⟩ :=
    stepColumns_ok e hcs hml e.drops 0 fb.clear r
  rw [hsc, GoRes.ok_bind]
  exact ⟨_, _, rfl, rfl, rfl, hlen, hcols, fb1, rfl, hh, hw⟩

/-- Concrete engine used by the C9 witness. -/
def engine9 : Engine :=
  { height := 2, width := 1, baseColor := ⟨0, 255, 0⟩,
    trailColors := calcTrailColors ⟨0, 255, 0⟩ 5,
    drops := [[⟨0, 3, 'A', true⟩]], charSet := ['A'],
    density := 1, frameBuffer := some (NewFrame 2 1),
    minDropLength := 3, maxDropLength := 3,
    reactivateChance := mkRat 1 100, pauseChance := mkRat 1 10 }

/-- Witness for C9: a concrete engine ticked while the size query
errors out. -/
theorem nextFrame_size_error_keeps_state_witness :
    ∃ e' r', Engine.NextFrame engine9 none ⟨[0, 0], [1]⟩ = .ok (e', r') ∧
      e'.height = engine9.height ∧ e'.width = engine9.width ∧
      e'.drops.length = engine9.drops.length ∧
      (∀ i, (e'.drops.getD i []).length = (engine9.drops.getD i []).length) ∧
      ∃ fb1, e'.frameBuffer = some fb1 ∧ fb1.height = (NewFrame 2 1).height ∧
        fb1.width = (NewFrame 2 1).width :=
  nextFrame_size_error_keeps_state engine9 (NewFrame 2 1) ⟨[0, 0], [1]⟩ rfl
    (by decide) (by decide)

-- === CLAIM C6 ===

/-- Reading any cell other than (r, c) is unaffected by a nested
row/column `set` at (r, c). -/
theorem getD_set_nested_ne (g : List (List α)) (r c r' c' : Nat) (a dflt : α)
    (h : r' ≠ r ∨ c' ≠ c) :
    ((g.set r ((g.getD r []).set c a)).getD r' []).getD c' dflt =
      (g.getD r' []).getD c' dflt := by
  rcases h with h | h
  · have houter : (g.set r ((g.getD r []).set c a)).getD r' [] = g.getD r' [] := by
      rw [List.getD_eq_getElem?_getD, List.getElem?_set_ne (Ne.symm h),
        ← List.getD_eq_getElem?_getD]
    rw [houter]
  · by_cases hr : r' = r
    · subst hr
      by_cases hlt : r' < g.length
      · have houter : (g.set r' ((g.getD r' []).set c a)).getD r' [] =
            (g.getD r' []).set c a := by
          rw [List.getD_eq_getElem?_getD, List.getElem?_set_eq_of_lt _ hlt]
          rfl
        rw [houter, List.getD_eq_getElem?_getD, List.getElem?_set_ne (Ne.symm h),
          ← List.getD_eq_getElem?_getD]
      · rw [List.set_eq_of_length_le (by omega)]
    · have houter : (g.set r ((g.getD r []).set c a)).getD r' [] = g.getD r' [] := by
        rw [List.getD_eq_getElem?_getD, List.getElem?_set_ne (fun hh => hr hh.symm),
          ← List.getD_eq_getElem?_getD]
      rw [houter]

/-- A cell other than (r, c) is unchanged by `setCell r c`. -/
theorem setCell_other_cells (f : Frame) (r c r' c' : Nat) (ch : Char) (col : Color)
    (bg : Bool) (h : r' ≠ r ∨ c' ≠ c) :
    (f.setCell r c ch col bg).charAt r' c' = f.charAt r' c' ∧
    (f.setCell r c ch col bg).colorAt r' c' = f.colorAt r' c' ∧
    (f.setCell r c ch col bg).bgAt r' c' = f.bgAt r' c' :=
  ⟨getD_set_nested_ne f.characters r c r' c' ch ' ' h,
   getD_set_nested_ne f.colors r c r' c' col ⟨0, 0, 0⟩ h,
   getD_set_nested_ne f.isBackground r c r' c' bg true h⟩

/-- The drawing fold touches no cell outside `rows × {col}`. -/
theorem foldDraw_other_cells (e : Engine) (d : Drop) (col : Nat) :
    ∀ (rows : List Nat) (f : Frame) (r c : Nat), (r ∉ rows ∨ c ≠ col) →
      ((rows.foldl
          (fun fr row =>
            fr.setCell row col d.Char
              (e.trailColors.getD
                (getTrailColorIndex e d.Pos (row : Int) d.Length).toNat ⟨0, 0, 0⟩)
              false)
          f).charAt r c = f.charAt r c ∧
       (rows.foldl
          (fun fr row =>
            fr.setCell row col d.Char
              (e.trailColors.getD
                (getTrailColorIndex e d.Pos (row : Int) d.Length).toNat ⟨0, 0, 0⟩)
              false)
          f).colorAt r c = f.colorAt r c ∧
       (rows.foldl
          (fun fr row =>
            fr.setCell row col d.Char
              (e.trailColors.getD
                (getTrailColorIndex e d.Pos (row : Int) d.Length).toNat ⟨0, 0, 0⟩)
              false)
          f).bgAt r c = f.bgAt r c) := by
  intro rows
  induction rows with
  | nil => intro f r c _; exact ⟨rfl, rfl, rfl⟩
  | cons row rows ih =>
    intro f r c h
    have hne : r ≠ row ∨ c ≠ col := by
      rcases h with h | h
      · exact Or.inl (fun hh => h (by simp [hh]))
      · exact Or.inr h
    have hrest : r ∉ rows ∨ c ≠ col := by
      rcases h with h | h
      · exact Or.inl (fun hh => h (by simp [hh]))
      · exact Or.inr h
    rw [List.foldl_cons]
    obtain ⟨h1, h2, h3⟩ := ih _ r c hrest
    obtain ⟨g1, g2, g3⟩ := setCell_other_cells f row col r c d.Char _ false hne
    exact ⟨h1.trans g1, h2.trans g2, h3.trans g3⟩

/-- Every row produced by `dropRows` lies in `[Pos - Length, Pos]`
and in `[0, height)`. -/
theorem dropRows_mem_bounds (d : Drop) (f : Frame) (row : Nat)
    (hmem : row ∈ dropRows d f) :
    d.Pos - d.Length ≤ (row : Int) ∧ (row : Int) ≤ d.Pos ∧ row < f.height := by
  unfold dropRows at hmem
  simp only [List.mem_map, List.mem_range] at hmem
  obtain ⟨k, hk, rfl⟩ := hmem
  have hs0 : (0 : Int) ≤ max (d.Pos - d.Length) 0 := le_max_right _ _
  have hs1 : d.Pos - d.Length ≤ max (d.Pos - d.Length) 0 := le_max_left _ _
  have ht1 : min d.Pos ((f.height : Int) - 1) ≤ d.Pos := min_le_left _ _
  have ht2 : min d.Pos ((f.height : Int) - 1) ≤ (f.height : Int) - 1 := min_le_right _ _
  omega

/-- The gradient index computed for a row inside the trail is within
the gradient bounds. -/
theorem getTrailColorIndex_bounds (e : Engine) (pos row length : Int)
    (hL : 1 ≤ length) (h1 : pos - length ≤ row) (h2 : row ≤ pos)
    (hN : 0 < e.trailColors.length) :
    0 ≤ getTrailColorIndex e pos row length ∧
    getTrailColorIndex e pos row length < (e.trailColors.length : Int) := by
  unfold getTrailColorIndex
  dsimp only
  have hLq : (0 : ℚ) < (length : ℚ) := by exact_mod_cast hL
  have hdq : (0 : ℚ) ≤ ((pos - row : Int) : ℚ) := by exact_mod_cast (by omega : (0 : Int) ≤ pos - row)
  have hNq : (0 : ℚ) ≤ ((e.trailColors.length : Nat) : ℚ) := by positivity
  have hq0 : (0 : ℚ) ≤ ((pos - row : Int) : ℚ) / (length : ℚ) * ((e.trailColors.length : Nat) : ℚ) :=
    mul_nonneg (div_nonneg hdq (le_of_lt hLq)) hNq
  have hdiv1 : ((pos - row : Int) : ℚ) / (length : ℚ) ≤ 1 := by
    rw [div_le_one hLq]
    exact_mod_cast (by omega : pos - row ≤ length)
  have hqN : ((pos - row : Int) : ℚ) / (length : ℚ) * ((e.trailColors.length : Nat) : ℚ) ≤
      ((e.trailColors.length : Nat) : ℚ) := by
    nlinarith
  have hfl0 : 0 ≤ ⌊((pos - row : Int) : ℚ) / (length : ℚ) * ((e.trailColors.length : Nat) : ℚ)⌋ :=
    Int.floor_nonneg.mpr hq0
  have hflN : ⌊((pos - row : Int) : ℚ) / (length : ℚ) * ((e.trailColors.length : Nat) : ℚ)⌋ ≤
      (e.trailColors.length : Int) := by
    have := Int.floor_le_floor hqN
    rwa [Int.floor_natCast] at this
  unfold goInt
  rw [if_pos hq0]
  by_cases hge : ⌊((pos - row : Int) : ℚ) / (length : ℚ) * ((e.trailColors.length : Nat) : ℚ)⌋ ≥
      (e.trailColors.length : Int)
  · rw [if_pos hge]
    omega
  · rw [if_neg hge]
    omega

/-- C6: drawing a drop with length L ≥ 1 and position P in
[-L, height + L] writes only to cells of its own column whose rows lie
in [P - L, P] ∩ [0, height); every row drawn and every trail-color
gradient index used is in bounds, and rows outside the valid range are
skipped without error (the drawing function is total). -/
theorem drawDrop_bounds (e : Engine) (d : Drop) (f : Frame) (col : Nat)
    (hL : 1 ≤ d.Length) (hP1 : -d.Length ≤ d.Pos)
    (hP2 : d.Pos ≤ (f.height : Int) + d.Length) (hN : e.trailColors.length = 5) :
    (∀ row ∈ dropRows d f, d.Pos - d.Length ≤ (row : Int) ∧ (row : Int) ≤ d.Pos ∧
        row < f.height ∧ 0 ≤ getTrailColorIndex e d.Pos (row : Int) d.Length ∧
        getTrailColorIndex e d.Pos (row : Int) d.Length < (e.trailColors.length : Int)) ∧
    (∀ r c, ((drawDrop e d f col).charAt r c ≠ f.charAt r c ∨
             (drawDrop e d f col).colorAt r c ≠ f.colorAt r c ∨
             (drawDrop e d f col).bgAt r c ≠ f.bgAt r c) →
        c = col ∧ d.Pos - d.Length ≤ (r : Int) ∧ (r : Int) ≤ d.Pos ∧ r < f.height) := by
  have hrows : ∀ row ∈ dropRows d f, d.Pos - d.Length ≤ (row : Int) ∧ (row : Int) ≤ d.Pos ∧
      row < f.height ∧ 0 ≤ getTrailColorIndex e d.Pos (row : Int) d.Length ∧
      getTrailColorIndex e d.Pos (row : Int) d.Length < (e.trailColors.length : Int) := by
    intro row hmem
    obtain ⟨hb1, hb2, hb3⟩ := dropRows_mem_bounds d f row hmem
    obtain ⟨hg1, hg2⟩ := getTrailColorIndex_bounds e d.Pos (row : Int) d.Length hL hb1 hb2
      (by omega)
    exact ⟨hb1, hb2, hb3, hg1, hg2⟩
  refine ⟨hrows, ?_⟩
  intro r c hchg
  by_cases hmem : r ∈ dropRows d f ∧ c = col
  · obtain ⟨hb1, hb2, hb3, _, _⟩ := hrows r hmem.1
    exact ⟨hmem.2, hb1, hb2, hb3⟩
  · exfalso
    have h : r ∉ dropRows d f ∨ c ≠ col := by
      by_cases h1 : r ∈ dropRows d f
      · exact Or.inr fun hc => hmem ⟨h1, hc⟩
      · exact Or.inl h1
    obtain ⟨h1, h2, h3⟩ := foldDraw_other_cells e d col (dropRows d f) f r c h
    unfold drawDrop at hchg
    rcases hchg with hc | hc | hc
    · exact hc h1
    · exact hc h2
    · exact hc h3

/-- Witness for C6: a 2-cell-long drop halfway off the top of a 4×1
frame. -/
theorem drawDrop_bounds_witness :
    (∀ row ∈ dropRows ⟨1, 2, 'A', true⟩ (NewFrame 4 1),
        (1 : Int) - 2 ≤ (row : Int) ∧ (row : Int) ≤ 1 ∧
        row < (NewFrame 4 1).height ∧
        0 ≤ getTrailColorIndex engine9 1 (row : Int) 2 ∧
        getTrailColorIndex engine9 1 (row : Int) 2 < (engine9.trailColors.length : Int)) ∧
    (∀ r c,
        ((drawDrop engine9 ⟨1, 2, 'A', true⟩ (NewFrame 4 1) 0).charAt r c ≠
            (NewFrame 4 1).charAt r c ∨
         (drawDrop engine9 ⟨1, 2, 'A', true⟩ (NewFrame 4 1) 0).colorAt r c ≠
            (NewFrame 4 1).colorAt r c ∨
         (drawDrop engine9 ⟨1, 2, 'A', true⟩ (NewFrame 4 1) 0).bgAt r c ≠
            (NewFrame 4 1).bgAt r c) →
        c = 0 ∧ (1 : Int) - 2 ≤ (r : Int) ∧ (r : Int) ≤ 1 ∧ r < (NewFrame 4 1).height) :=
  drawDrop_bounds engine9 ⟨1, 2, 'A', true⟩ (NewFrame 4 1) 0 (by decide) (by decide)
    (by decide) (by decide)

-- === CLAIM C10 ===

/-- `NewDrop` panics (Go `rand.Intn` with a non-positive bound) for
terminal heights 0 and 1, given a non-empty character set. -/
theorem NewDrop_small_height_panics (h : Nat) (minL maxL : Int) (cs : List Char)
    (r : Rng) (hcs : cs ≠ []) (hh : h = 0 ∨ h = 1) :
    NewDrop h minL maxL cs r = .panicked := by
  have hemp : ¬(cs.isEmpty = true) := fun he => hcs (List.isEmpty_iff.mp he)
  rcases hh with hh | hh <;> subst hh
  · unfold NewDrop Rng.intn
    rw [if_neg hemp, if_pos (by norm_num)]
  · unfold NewDrop Rng.intn
    rw [if_neg hemp, if_neg (by norm_num)]
    dsimp only
    rw [if_pos (by norm_num)]

/-- The per-column drop count is always at least 1. -/
theorem numDropsFor_pos (q : ℚ) : 0 < numDropsFor q := by
  unfold numDropsFor
  dsimp only
  by_cases h : goInt (q + mkRat 1 2) < 1
  · rw [if_pos h]
    omega
  · rw [if_neg h]
    omega

/-- C10: with height ≥ 2, ordered positive length bounds and a
non-empty character set, `NewDrop` returns without error an active
drop whose length is in [minLength, maxLength], whose character comes
from the set and whose position lies in [-(height/2 - 1), height - 1];
for height 0 or 1 its bounded random draw has a non-positive bound and
panics instead of returning an error, and `Engine.Resize` to such a
height (with at least one column) propagates that panic. -/
theorem newDrop_height_precondition :
    (∀ (h : Nat) (minL maxL : Int) (cs : List Char) (r : Rng),
      2 ≤ h → 1 ≤ minL → minL ≤ maxL → cs ≠ [] →
      ∃ d r', NewDrop h minL maxL cs r = .ok (d, r') ∧ d.Active = true ∧
        minL ≤ d.Length ∧ d.Length ≤ maxL ∧ d.Char ∈ cs ∧
        -((h / 2 : Nat) : Int) + 1 ≤ d.Pos ∧ d.Pos ≤ (h : Int) - 1) ∧
    (∀ (h : Nat) (minL maxL : Int) (cs : List Char) (r : Rng),
      cs ≠ [] → (h = 0 ∨ h = 1) → NewDrop h minL maxL cs r = .panicked) ∧
    (∀ (e : Engine) (h w : Nat) (r : Rng),
      e.charSet ≠ [] → 0 < w → ¬(h = e.height ∧ w = e.width) → (h = 0 ∨ h = 1) →
      Engine.Resize e h w r = .panicked) := by
  refine ⟨?_, ?_, ?_⟩
  · intro h minL maxL cs r h2 hm1 hml hcs
    have hemp : ¬(cs.isEmpty = true) := fun he => hcs (List.isEmpty_iff.mp he)
    have hlen : 0 < cs.length := List.length_pos.mpr hcs
    unfold NewDrop Rng.intn
    rw [if_neg hemp, if_neg (by omega)]
    dsimp only
    rw [if_neg (by omega)]
    dsimp only
    rw [if_neg (by omega)]
    dsimp only
    rw [if_neg (by omega)]
    dsimp only
    have ha0 : (0 : Int) ≤ (r.ints.headD 0 : Int) % (h : Int) :=
      Int.emod_nonneg _ (by omega)
    have ha1 : (r.ints.headD 0 : Int) % (h : Int) < (h : Int) :=
      Int.emod_lt_of_pos _ (by omega)
    have hb0 : (0 : Int) ≤ (r.ints.tail.headD 0 : Int) % ((h / 2 : Nat) : Int) :=
      Int.emod_nonneg _ (by omega)
    have hb1 : (r.ints.tail.headD 0 : Int) % ((h / 2 : Nat) : Int) < ((h / 2 : Nat) : Int) :=
      Int.emod_lt_of_pos _ (by omega)
    have hl0 : (0 : Int) ≤ (r.ints.tail.tail.headD 0 : Int) % (maxL - minL + 1) :=
      Int.emod_nonneg _ (by omega)
    have hl1 : (r.ints.tail.tail.headD 0 : Int) % (maxL - minL + 1) < maxL - minL + 1 :=
      Int.emod_lt_of_pos _ (by omega)
    have hc0 : (0 : Int) ≤ (r.ints.tail.tail.tail.headD 0 : Int) % (cs.length : Int) :=
      Int.emod_nonneg _ (by omega)
    have hc1 : (r.ints.tail.tail.tail.headD 0 : Int) % (cs.length : Int) < (cs.length : Int) :=
      Int.emod_lt_of_pos _ (by omega)
    have hidx : ((r.ints.tail.tail.tail.headD 0 : Int) % (cs.length : Int)).toNat
        < cs.length := by omega
    refine ⟨_, _, rfl, rfl, by dsimp only; omega, by dsimp only; omega, ?_, ?_, ?_⟩
    · dsimp only
      rw [List.getD_eq_getElem _ _ hidx]
      exact List.getElem_mem _
    · dsimp only
      omega
    · dsimp only
      omega
  · exact fun h minL maxL cs r => NewDrop_small_height_panics h minL maxL cs r
  · intro e h w r hcs hw hch hh
    unfold Engine.Resize
    rw [if_neg hch]
    obtain ⟨c, rfl⟩ : ∃ c, w = c + 1 := ⟨w - 1, by omega⟩
    obtain ⟨m, hm⟩ : ∃ m, numDropsFor e.density = m + 1 :=
      ⟨numDropsFor e.density - 1, by have := numDropsFor_pos e.density; omega⟩
    unfold mkCols
    rw [hm]
    unfold mkDrops
    rw [NewDrop_small_height_panics h e.minDropLength e.maxDropLength e.charSet r hcs hh,
      GoRes.panicked_bind, GoRes.panicked_bind, GoRes.panicked_bind]

/-- Witness for C10: a normal draw at height 4 with length bounds
[2, 3] and two characters; panics at heights 1 and 0. -/
theorem newDrop_height_precondition_witness :
    (∃ d r', NewDrop 4 2 3 ['A', 'B'] ⟨[5, 1, 0, 1], []⟩ = .ok (d, r') ∧
      d.Active = true ∧ (2 : Int) ≤ d.Length ∧ d.Length ≤ 3 ∧ d.Char ∈ ['A', 'B'] ∧
      -(((4 / 2 : Nat)) : Int) + 1 ≤ d.Pos ∧ d.Pos ≤ (4 : Int) - 1) ∧
    NewDrop 1 2 3 ['A'] ⟨[], []⟩ = .panicked ∧
    Engine.Resize engine9 0 1 ⟨[], []⟩ = .panicked :=
  ⟨newDrop_height_precondition.1 4 2 3 ['A', 'B'] ⟨[5, 1, 0, 1], []⟩ (by decide)
      (by decide) (by decide) (by decide),
   newDrop_height_precondition.2.1 1 2 3 ['A'] ⟨[], []⟩ (by decide) (Or.inr rfl),
   newDrop_height_precondition.2.2 engine9 0 1 ⟨[], []⟩ (by decide) (by decide)
      (by decide) (Or.inl rfl)⟩
